import Mathlib

/-!
Verification of `plottr/apps/appmanager.py`: a shallow embedding of the
app-manager module (worker-side listener and command dispatcher, the
manager-side process table, port allocator, liveness monitor and façade
operations), with theorems settling the specification claims.

Python values travelling over the wire are modelled by the inductive type
`Value`; a Python exception raised out of a function is modelled by the
`Except.error` branch, while an exception object handed around as ordinary
data (a failure-valued reply) is the `Value.exc` constructor.
-/

namespace PlottrAppManager

/-- A picklable Python value as it appears on the app-manager wire:
`None`, booleans, ints, strings, exception objects (failure values carried
as data), dicts with string keys, and tuples. -/
inductive Value where
  | none
  | bool (b : Bool)
  | int (n : Int)
  | str (s : String)
  | exc (e : String)
  | dict (kv : List (String × Value))
  | tuple (vs : List Value)

/-- Python `x is None`. -/
def isNoneVal : Value → Bool
  | .none => true
  | _ => false

/-- Python `x == s` for a string literal `s`: true exactly when `x` is that
string (comparison of a non-string object with a string yields False). -/
def valueEqStr (v : Value) (s : String) : Bool :=
  match v with
  | .str t => t = s
  | _ => false

/-- Is the value an exception object (Python `isinstance(x, Exception)`)? -/
def isExcVal : Value → Bool
  | .exc _ => true
  | _ => false

/-- `Except.isOk` spelled out: did the computation finish without a raised
exception? -/
def isOkE {ε α : Type} : Except ε α → Bool
  | .ok _ => true
  | .error _ => false

/-! ## Worker side: the command dispatcher (`App.onMessageReceived`) -/

/-- A node of the flowchart, seen through the only operation the dispatcher
performs on it: `setattr(node, targetProperty, value)`. A property setter of
the external node object may raise; the outcome is the node
behaviour, which the embedding takes as given. -/
structure NodeT where
  setAttrResult : String → Value → Except String Unit

/-- The worker-side coordinator (`plottr.node.node.Flowchart`), seen through
the three operations the dispatcher performs on it. `setInput` receives the
keyword arguments obtained by unpacking the request value; it and
`outputValues` are external code that may raise or return any value. -/
structure Flowchart where
  setInput : List (String × Value) → Except String Value
  outputValues : Except String Value
  nodes : List (String × NodeT)

/-- The wire request triple `(targetName, targetProperty, value)`. -/
structure Request where
  targetName : String
  targetProperty : String
  value : Value

/-- Do the names `""`, `"fc"`, `"flowchart"` address the flowchart?
(`if targetName in ["", "fc", "flowchart"]`). -/
def isFcAlias (s : String) : Bool :=
  s = "" || s = "fc" || s = "flowchart"

/-- Python `f(**value)` argument unpacking: succeeds with the pairs when
`value` is a mapping, raises `TypeError` otherwise. -/
def kwargsOf : Value → Except String (List (String × Value))
  | .dict kv => .ok kv
  | _ => .error "TypeError: argument after ** must be a mapping"

/-- `self.fc.nodes()[targetName]`: dict lookup, raising `KeyError` when the
name is absent. -/
def nodesGet (d : List (String × NodeT)) (k : String) : Except String NodeT :=
  match d.find? (fun p => p.1 = k) with
  | some p => .ok p.2
  | Option.none => .error ("KeyError: " ++ k)

/-- `App.onMessageReceived`, the command dispatcher. Returns `.ok reply`
when a reply value is produced (emitted through `replyReady`), and
`.error e` when an exception propagates out of the handler. Only the node
branch is wrapped in `try/except`; the flowchart branch calls
`self.fc.setInput(**value)` / `self.fc.outputValues()` unguarded. -/
def onMessageReceived (fc : Flowchart) (m : Request) : Except String Value :=
  if isFcAlias m.targetName then
    if m.targetProperty = "setInput" then do
      let kw ← kwargsOf m.value
      fc.setInput kw
    else if m.targetProperty = "getOutput" then
      fc.outputValues
    else
      .ok (.exc ("ValueError: Flowchart supports only setting input values (setInput) or getting output values (getOutput). " ++ m.targetProperty ++ " is not known."))
  else
    match (do
      let node ← nodesGet fc.nodes m.targetName
      node.setAttrResult m.targetProperty m.value : Except String Unit) with
    | .ok _ => .ok (.bool true)
    | .error e => .ok (.exc e)

/-! ## Worker side: the listener (`AppServer.run` and `AppServer.loadReply`) -/

/-- Observable outcome of `AppServer.run` handling one received message:
the `messageReceived` emissions it makes and the reply it sends on the
socket (`Option.none`: still stuck in the waiting loop, nothing sent). -/
structure ServerOutcome where
  emitted : List Value
  sent : Option Value

/-- The waiting loop `while self.reply is None: qtsleep(0.01)`, run against
the sequence of values successively stored into `self.reply` by
`loadReply`. The slot starts as `None`; each load overwrites it; the loop
exits as soon as the slot is not `None`, and the slot value is then sent.
If every load is `None` the loop never exits. -/
def waitReply : List Value → Option Value
  | [] => Option.none
  | v :: vs => if isNoneVal v then waitReply vs else some v

/-- One iteration of the message-handling branch of `AppServer.run`: on the
literal string `"ping"` reply `"pong"` at once, without emitting
`messageReceived`; otherwise emit the message and enter the waiting loop,
sending whatever non-`None` reply the loop observes. `loads` is the
sequence of values delivered to `loadReply` while waiting. -/
def serverHandleMessage (msg : Value) (loads : List Value) : ServerOutcome :=
  if valueEqStr msg "ping" then { emitted := [], sent := some (.str "pong") }
  else { emitted := [msg], sent := waitReply loads }

/-! ## Manager side: process table, port allocator, façade (`AppManager`) -/

/-- `IdType = Union[int, str]`. -/
inductive IdT where
  | int (n : Int)
  | str (s : String)
deriving DecidableEq, Repr

/-- The manager state: the configured base port (`self.initialPort`, never
mutated), the process table `self.processes` as an insertion-ordered
association list from id to assigned port (the process and socket handles
of a record are external resources, identified here by the record id), and
whether `self.procmon` / `self.procmonThread` are still set (not `None`). -/
structure ManagerState where
  initialPort : Nat
  processes : List (IdT × Nat)
  procmon : Bool
  procmonThread : Bool
deriving DecidableEq, Repr

/-- The state right after `AppManager.__init__(initialPort)`. -/
def initManager (base : Nat) : ManagerState :=
  { initialPort := base, processes := [], procmon := true, procmonThread := true }

/-- `Id in self.processes`. -/
def hasId (s : ManagerState) (i : IdT) : Bool :=
  s.processes.any (fun p => p.1 = i)

/-- `usedPorts = [data[port] for data in self.processes.values()]`. -/
def usedPorts (s : ManagerState) : List Nat :=
  s.processes.map Prod.snd

/-- The keys of the process table, in insertion order. -/
def keysOf (l : List (IdT × Nat)) : List IdT :=
  l.map Prod.fst

/-- The port recorded for id `i`, if any. -/
def lookupId (s : ManagerState) (i : IdT) : Option Nat :=
  (s.processes.find? (fun p => p.1 = i)).map Prod.snd

/-- The loop `port = self.initialPort; while port in usedPorts: port += 1`,
with explicit fuel; `usedPorts.length + 1` candidate ports always contain a
free one, so this fuel is enough (proved below). -/
def findFreePortAux (used : List Nat) : Nat → Nat → Nat
  | 0, port => port
  | fuel + 1, port => if port ∈ used then findFreePortAux used fuel (port + 1) else port

/-- The port-allocation loop of `AppManager.launchApp`. -/
def findFreePort (base : Nat) (used : List Nat) : Nat :=
  findFreePortAux used (used.length + 1) base

/-- `AppManager.launchApp(Id, module, func, *args)` as it acts on the
manager state: reject a duplicate id with `False`; otherwise assign the
first available port, insert the record and return `True`. Spawning the OS
process, connecting the socket, registering it with the poller and emitting
`newProcess` act only on external resources and carry no manager state. -/
def launchApp (s : ManagerState) (i : IdT) : ManagerState × Bool :=
  if hasId s i then (s, false)
  else
    let port := findFreePort s.initialPort (usedPorts s)
    ({ s with processes := s.processes ++ [(i, port)] }, true)

/-- A sequence of `launchApp` calls, in order. -/
def launchAll : ManagerState → List IdT → ManagerState
  | s, [] => s
  | s, i :: rest => launchAll (launchApp s i).1 rest

/-- Python `del d[i]` on a dict rendered as an association list: remove the
entry for key `i`, raising `KeyError` when it is absent. -/
def delKey (d : List (IdT × Nat)) (i : IdT) : Except String (List (IdT × Nat)) :=
  if d.any (fun p => p.1 = i) then .ok (d.eraseP (fun p => p.1 = i))
  else .error "KeyError"

/-- `AppManager.onProcessEneded(Id)`: the unguarded `del self.processes[Id]`. -/
def onProcessEneded (s : ManagerState) (i : IdT) : Except String ManagerState :=
  match delKey s.processes i with
  | .ok ps => .ok { s with processes := ps }
  | .error e => .error e

/-- Observable outcome of a successful `AppManager.message` call: what was
sent over the socket, the response handed back to the caller, and whether a
warning with a rendered traceback was logged. -/
structure MessageOutcome where
  sent : List Value
  response : Value
  loggedTrace : Bool

/-- `AppManager.message(Id, targetName, targetProperty, value)`: raise
`ValueError` when the id is unknown; otherwise send the request triple,
block for the response (`reply`, supplied by the wire), log a rendered
traceback when the response is an exception object, and return the
response unchanged. -/
def message (s : ManagerState) (i : IdT) (tn tp : String) (v : Value)
    (reply : Value) : Except String MessageOutcome :=
  if hasId s i then
    .ok { sent := [Value.tuple [.str tn, .str tp, v]],
          response := reply,
          loggedTrace := isExcVal reply }
  else
    .error "ValueError: no app with this ID running."

/-- `AppManager.pingApp(Id)`: return `false` and send nothing when the id
is unknown; otherwise send the string `"ping"`, block for the reply
(supplied by the wire), and return whether it equals `"pong"`. The second
component lists what was sent on the socket. -/
def pingApp (s : ManagerState) (i : IdT) (reply : Value) : Bool × List Value :=
  if hasId s i then (valueEqStr reply "pong", [Value.str "ping"])
  else (false, [])

/-- The external actions `AppManager.closeEvent` performs on the monitor,
the worker processes, their sockets, and the shared zmq context. -/
inductive MAction where
  | procmonQuit
  | procmonDeleteLater
  | threadQuit
  | threadWait
  | threadDeleteLater
  | processClose (i : IdT)
  | socketClose (i : IdT)
  | contextDestroy
deriving DecidableEq, Repr

/-- The `for Id, data in self.processes.items()` loop of `closeEvent`:
close the process handle, then the socket, of every record in order. -/
def closeActions (l : List (IdT × Nat)) : List MAction :=
  (l.map (fun p => [MAction.processClose p.1, MAction.socketClose p.1])).flatten

/-- `AppManager.closeEvent`: tear down the monitor and its thread (each
guarded by an `is not None` check and nulled out afterwards), then close the
process handle and socket of every record in `self.processes` — which is
never cleared — and destroy the shared context. Returns the new state and
the list of actions performed, in order. -/
def closeEvent (s : ManagerState) : ManagerState × List MAction :=
  ({ s with procmon := false, procmonThread := false },
   (if s.procmon then [MAction.procmonQuit, MAction.procmonDeleteLater] else []) ++
   (if s.procmonThread then [MAction.threadQuit, MAction.threadWait, MAction.threadDeleteLater] else []) ++
   closeActions s.processes ++ [MAction.contextDestroy])

/-! ## The liveness monitor (`ProcessMonitor.run`) -/

/-- The body of one monitor cycle: iterate over the snapshot
`processesCopy` while deleting terminated entries from the live dict `cur`
and emitting their ids in order. `state i` is what `p.state()` reports for
the process with id `i` during this cycle (`0` = terminated). -/
def monitorCycleAux (state : IdT → Nat) : List IdT → List IdT → List IdT → List IdT × List IdT
  | [], cur, ems => (cur, ems)
  | i :: rest, cur, ems =>
    if state i = 0 then monitorCycleAux state rest (cur.erase i) (ems ++ [i])
    else monitorCycleAux state rest cur ems

/-- One cycle of `ProcessMonitor.run`: snapshot the tracked ids, delete
each terminated one from the tracking dict, emit `processTerminated` for it.
Returns (ids still tracked, ids emitted this cycle). -/
def monitorCycle (state : IdT → Nat) (tracked : List IdT) : List IdT × List IdT :=
  monitorCycleAux state tracked tracked []

/-- Several consecutive monitor cycles; `states` gives the per-cycle
process states. Returns (ids still tracked, all emissions in order). -/
def monitorRun : List (IdT → Nat) → List IdT → List IdT × List IdT
  | [], tracked => (tracked, [])
  | st :: rest, tracked =>
    ((monitorRun rest (monitorCycle st tracked).1).1,
     (monitorCycle st tracked).2 ++ (monitorRun rest (monitorCycle st tracked).1).2)

/-- The façade handler applied to each emission in turn: every
`processTerminated(Id)` triggers `onProcessEneded`, an unguarded
`del self.processes[Id]`. -/
def reapAll (d : List (IdT × Nat)) : List IdT → Except String (List (IdT × Nat))
  | [] => .ok d
  | i :: rest =>
    match delKey d i with
    | .ok d2 => reapAll d2 rest
    | .error e => .error e

/-! ## Properties of the port-allocation loop -/

theorem findFreePortAux_spec (used : List Nat) :
    ∀ fuel port, (∃ k, k < fuel ∧ port + k ∉ used) →
      port ≤ findFreePortAux used fuel port ∧
      findFreePortAux used fuel port ∉ used ∧
      ∀ q, port ≤ q → q ∉ used → findFreePortAux used fuel port ≤ q := by
  intro fuel
  induction fuel with
  | zero =>
    rintro port ⟨k, hk, -⟩
    omega
  | succ n ih =>
    rintro port ⟨k, hk, hfree⟩
    by_cases hmem : port ∈ used
    · have hk0 : k ≠ 0 := by
        rintro rfl
        exact hfree hmem
      have hex : ∃ k2, k2 < n ∧ (port + 1) + k2 ∉ used := by
        refine ⟨k - 1, by omega, ?_⟩
        have : port + 1 + (k - 1) = port + k := by omega
        rw [this]
        exact hfree
      obtain ⟨h1, h2, h3⟩ := ih (port + 1) hex
      refine ⟨?_, ?_, ?_⟩
      · simp only [findFreePortAux, if_pos hmem]
        omega
      · simpa only [findFreePortAux, if_pos hmem] using h2
      · intro q hq hqf
        have hne : q ≠ port := by
          rintro rfl
          exact hqf hmem
        simp only [findFreePortAux, if_pos hmem]
        exact h3 q (by omega) hqf
    · refine ⟨?_, ?_, ?_⟩
      · simp only [findFreePortAux, if_neg hmem]
        exact Nat.le_refl port
      · simp only [findFreePortAux, if_neg hmem]
        exact hmem
      · intro q hq _
        simp only [findFreePortAux, if_neg hmem]
        exact hq

theorem exists_port_not_mem (base : Nat) (used : List Nat) :
    ∃ k, k < used.length + 1 ∧ base + k ∉ used := by
  by_contra hcon
  push_neg at hcon
  have hsub : ((List.range (used.length + 1)).map (base + ·)) ⊆ used := by
    intro x hx
    simp only [List.mem_map, List.mem_range] at hx
    obtain ⟨k, hk, rfl⟩ := hx
    exact hcon k hk
  have hnd : ((List.range (used.length + 1)).map (base + ·)).Nodup :=
    (List.nodup_range _).map (fun a b hab => by omega)
  have hle := (hnd.subperm hsub).length_le
  simp only [List.length_map, List.length_range] at hle
  omega

/-- The assigned port is the lowest port at or above the base that is not
currently in use. -/
theorem findFreePort_spec (base : Nat) (used : List Nat) :
    base ≤ findFreePort base used ∧ findFreePort base used ∉ used ∧
    ∀ q, base ≤ q → q ∉ used → findFreePort base used ≤ q := by
  have h := findFreePortAux_spec used (used.length + 1) base (exists_port_not_mem base used)
  simpa only [findFreePort] using h

/-- The lowest-free-port property, as the specification states it. -/
def IsLowestFreePort (s : ManagerState) (q : Nat) : Prop :=
  s.initialPort ≤ q ∧ q ∉ usedPorts s ∧
    ∀ p, s.initialPort ≤ p → p ∉ usedPorts s → q ≤ p

theorem isLowestFreePort_findFreePort (s : ManagerState) :
    IsLowestFreePort s (findFreePort s.initialPort (usedPorts s)) :=
  findFreePort_spec s.initialPort (usedPorts s)

/-! ## C8: the ping fast path -/

/-- C8: a message equal to the literal string ping is answered with the
literal string pong immediately, with no `messageReceived` emission and no
pending-reply wait, whatever reply loads would arrive later. -/
theorem ping_fast_path (loads : List Value) :
    serverHandleMessage (Value.str "ping") loads =
      { emitted := [], sent := some (Value.str "pong") } := by
  rfl

/-! ## C9: a None reply is never sent -/

theorem waitReply_all_none (loads : List Value)
    (h : ∀ v ∈ loads, isNoneVal v = true) : waitReply loads = Option.none := by
  induction loads with
  | nil => rfl
  | cons v vs ih =>
    have hv : isNoneVal v = true := h v (List.mem_cons_self v vs)
    simp only [waitReply, hv, if_pos]
    exact ih fun w hw => h w (List.mem_cons_of_mem v hw)

/-- C9: when every value loaded into the pending-reply slot is None, the
listener emits the message but never sends a response: the waiting loop
tests `self.reply is None`, so a None reply is indistinguishable from no
reply, and the loop never exits to send, however many loads occur. -/
theorem none_reply_never_sent (msg : Value) (loads : List Value)
    (hping : valueEqStr msg "ping" = false)
    (hloads : ∀ v ∈ loads, isNoneVal v = true) :
    (serverHandleMessage msg loads).emitted = [msg] ∧
    (serverHandleMessage msg loads).sent = Option.none := by
  have hcond : ¬ (valueEqStr msg "ping" = true) := by
    rw [hping]
    exact Bool.false_ne_true
  simp only [serverHandleMessage]
  rw [if_neg hcond]
  exact ⟨rfl, waitReply_all_none loads hloads⟩

/-- A flowchart whose input-setting operation returns None, as
`Flowchart.setInput` does. -/
def fcNone : Flowchart :=
  { setInput := fun _ => .ok Value.none,
    outputValues := .ok Value.none,
    nodes := [] }

theorem none_reply_never_sent_witness :
    onMessageReceived fcNone
        { targetName := "", targetProperty := "setInput", value := Value.dict [] } =
      .ok Value.none ∧
    (serverHandleMessage
        (Value.tuple [Value.str "", Value.str "setInput", Value.dict []])
        [Value.none]).sent = Option.none := by
  refine ⟨rfl, ?_⟩
  refine (none_reply_never_sent
    (Value.tuple [Value.str "", Value.str "setInput", Value.dict []])
    [Value.none] rfl ?_).2
  intro v hv
  rw [List.mem_singleton] at hv
  subst hv
  rfl

/-! ## C1: totality of the dispatcher -/

/-- A flowchart with no nodes whose operations return None; used to exhibit
a request on which dispatch raises. -/
def fcCexC1 : Flowchart :=
  { setInput := fun _ => .ok Value.none,
    outputValues := .ok Value.none,
    nodes := [] }

/-- A well-formed request triple addressing the flowchart with `setInput`
and a non-mapping value: unpacking `**value` raises `TypeError` out of the
dispatch handler. -/
def reqCexC1 : Request :=
  { targetName := "", targetProperty := "setInput", value := Value.int 3 }

/-- C1 counterexample: on the request `("", "setInput", 3)` the dispatcher
raises (the `TypeError` from unpacking `**3` propagates out of
`onMessageReceived`) instead of producing a reply value. -/
theorem dispatch_can_raise :
    onMessageReceived fcCexC1 reqCexC1 =
      .error "TypeError: argument after ** must be a mapping" := by
  rfl

/-- C1 amended: an exception can escape `onMessageReceived` only from the
flowchart branch applying setInput or getOutput (whose calls are not
guarded); every request addressed to a node, and every flowchart request
with an unsupported property, produces a reply value. -/
theorem dispatch_raises_only_flowchart_ops (fc : Flowchart) (m : Request)
    (h : isOkE (onMessageReceived fc m) = false) :
    isFcAlias m.targetName = true ∧
    (m.targetProperty = "setInput" ∨ m.targetProperty = "getOutput") := by
  by_cases halias : isFcAlias m.targetName
  · refine ⟨halias, ?_⟩
    by_cases hset : m.targetProperty = "setInput"
    · exact Or.inl hset
    · by_cases hget : m.targetProperty = "getOutput"
      · exact Or.inr hget
      · exfalso
        simp only [onMessageReceived, if_pos halias, if_neg hset, if_neg hget, isOkE] at h
        exact Bool.noConfusion h
  · exfalso
    simp only [onMessageReceived, if_neg halias] at h
    rcases hnode : (do
        let node ← nodesGet fc.nodes m.targetName
        node.setAttrResult m.targetProperty m.value : Except String Unit) with _ | _ <;>
      simp only [hnode, isOkE] at h <;> exact Bool.noConfusion h

theorem dispatch_raises_only_flowchart_ops_witness :
    isFcAlias reqCexC1.targetName = true ∧
    (reqCexC1.targetProperty = "setInput" ∨ reqCexC1.targetProperty = "getOutput") :=
  dispatch_raises_only_flowchart_ops fcCexC1 reqCexC1 rfl

/-! ## C5: message raises only on unknown ids and never drops a response -/

/-- C5: `message` raises exactly when the id is not in the process table;
for a known id it sends the request triple, and returns the blocked-for
response unchanged, logging a rendered trace exactly when the response is a
failure value — a failure-valued response is returned, not suppressed. -/
theorem message_spec (s : ManagerState) (i : IdT) (tn tp : String)
    (v reply : Value) :
    (isOkE (message s i tn tp v reply) = hasId s i) ∧
    (hasId s i = true →
      message s i tn tp v reply =
        .ok { sent := [Value.tuple [.str tn, .str tp, v]],
              response := reply,
              loggedTrace := isExcVal reply }) := by
  by_cases h : hasId s i = true
  · unfold message
    rw [if_pos h, h]
    exact ⟨rfl, fun _ => rfl⟩
  · have hfalse : hasId s i = false := by
      rw [Bool.not_eq_true] at h
      exact h
    unfold message
    rw [if_neg h, hfalse]
    exact ⟨rfl, fun hcon => absurd hcon Bool.false_ne_true⟩

/-- A manager with one live worker, id 1 on port 12345. -/
def mgrW : ManagerState :=
  { initialPort := 12345, processes := [(IdT.int 1, 12345)],
    procmon := true, procmonThread := true }

theorem message_spec_witness :
    hasId mgrW (IdT.int 1) = true ∧
    message mgrW (IdT.int 1) "somenode" "someprop" Value.none (Value.exc "boom") =
      .ok { sent := [Value.tuple [.str "somenode", .str "someprop", Value.none]],
            response := Value.exc "boom",
            loggedTrace := true } :=
  ⟨rfl,
   (message_spec mgrW (IdT.int 1) "somenode" "someprop" Value.none (Value.exc "boom")).2 rfl⟩

/-! ## C6: pingApp -/

theorem valueEqStr_eq_true_iff (v : Value) (s : String) :
    valueEqStr v s = true ↔ v = Value.str s := by
  cases v <;> simp [valueEqStr]

/-- C6: `pingApp` returns false and sends nothing when the id is unknown;
otherwise it sends exactly the string ping and returns true precisely when
the blocked-for reply equals the string pong. -/
theorem pingApp_spec (s : ManagerState) (i : IdT) (reply : Value) :
    (hasId s i = false → pingApp s i reply = (false, [])) ∧
    (hasId s i = true →
      (pingApp s i reply).2 = [Value.str "ping"] ∧
      ((pingApp s i reply).1 = true ↔ reply = Value.str "pong")) := by
  constructor
  · intro h
    have hn : ¬ (hasId s i = true) := by
      rw [h]
      exact Bool.false_ne_true
    unfold pingApp
    rw [if_neg hn]
  · intro h
    unfold pingApp
    rw [if_pos h]
    exact ⟨rfl, valueEqStr_eq_true_iff reply "pong"⟩

theorem pingApp_spec_witness :
    pingApp mgrW (IdT.int 2) (Value.str "pong") = (false, []) ∧
    (pingApp mgrW (IdT.int 1) (Value.str "pong")).2 = [Value.str "ping"] ∧
    ((pingApp mgrW (IdT.int 1) (Value.str "pong")).1 = true ↔
      Value.str "pong" = Value.str "pong") :=
  ⟨(pingApp_spec mgrW (IdT.int 2) (Value.str "pong")).1 rfl,
   (pingApp_spec mgrW (IdT.int 1) (Value.str "pong")).2 rfl⟩

/-! ## C7: duplicate launch is rejected without touching the table -/

/-- Number of worker records carrying id `i`. -/
def countId (s : ManagerState) (i : IdT) : Nat :=
  (s.processes.filter (fun p => p.1 = i)).length

/-- C7: launching a fresh id returns true; launching the same id again
returns false and leaves the state — table, ports, the first record —
exactly as the first call left it, with exactly one record for that id.
(`launchApp` is a total function: the rejection raises nothing.) -/
theorem launchApp_duplicate (s : ManagerState) (i : IdT)
    (h : hasId s i = false) :
    (launchApp s i).2 = true ∧
    countId (launchApp s i).1 i = 1 ∧
    launchApp (launchApp s i).1 i = ((launchApp s i).1, false) := by
  have hnot : ¬ (hasId s i = true) := by
    rw [h]
    exact Bool.noConfusion
  have hfilter : s.processes.filter (fun p => p.1 = i) = [] := by
    rw [List.filter_eq_nil_iff]
    intro a ha hp
    have : s.processes.any (fun p => p.1 = i) = true :=
      List.any_eq_true.2 ⟨a, ha, hp⟩
    exact hnot this
  have hstep : (launchApp s i).1.processes =
      s.processes ++ [(i, findFreePort s.initialPort (usedPorts s))] := by
    unfold launchApp
    rw [if_neg hnot]
  have hdup : hasId (launchApp s i).1 i = true := by
    simp only [hasId, hstep, List.any_append, List.any_cons, List.any_nil]
    simp
  refine ⟨?_, ?_, ?_⟩
  · unfold launchApp
    rw [if_neg hnot]
  · simp only [countId, hstep, List.filter_append, hfilter, List.nil_append]
    simp
  · have hgen : ∀ t : ManagerState, hasId t i = true → launchApp t i = (t, false) := by
      intro t htd
      unfold launchApp
      rw [if_pos htd]
    exact hgen (launchApp s i).1 hdup

theorem launchApp_duplicate_witness :
    (launchApp mgrW (IdT.int 2)).2 = true ∧
    countId (launchApp mgrW (IdT.int 2)).1 (IdT.int 2) = 1 ∧
    launchApp (launchApp mgrW (IdT.int 2)).1 (IdT.int 2) =
      ((launchApp mgrW (IdT.int 2)).1, false) :=
  launchApp_duplicate mgrW (IdT.int 2) rfl

/-! ## C2: teardown is not idempotent -/

/-- A manager with one live worker, about to be torn down. -/
def mgrCexC2 : ManagerState :=
  { initialPort := 12345, processes := [(IdT.str "app1", 12345)],
    procmon := true, procmonThread := true }

/-- C2 counterexample: after one teardown of a manager tracking one worker,
a second `closeEvent` call is not a no-op — it closes the worker process
handle and socket again and destroys the shared context again, because
`self.processes` is never cleared. -/
theorem closeEvent_not_idempotent :
    (closeEvent (closeEvent mgrCexC2).1).2 =
      [MAction.processClose (IdT.str "app1"),
       MAction.socketClose (IdT.str "app1"),
       MAction.contextDestroy] ∧
    (closeEvent (closeEvent mgrCexC2).1).2 ≠ [] := by
  refine ⟨rfl, ?_⟩
  intro hcon
  rw [show (closeEvent (closeEvent mgrCexC2).1).2 =
      [MAction.processClose (IdT.str "app1"),
       MAction.socketClose (IdT.str "app1"),
       MAction.contextDestroy] from rfl] at hcon
  exact List.noConfusion hcon

/-- C2 amended: the first teardown stops and releases the monitor and its
thread, closes every tracked process handle and endpoint once each, and
destroys the context; the monitor part is idempotent (a second call
performs no monitor actions), but because the process table is never
cleared, every further teardown call repeats the per-worker process and
socket closes and the context destruction. -/
theorem closeEvent_second_call (s : ManagerState)
    (hm : s.procmon = true) (ht : s.procmonThread = true) :
    (closeEvent s).2 =
      [MAction.procmonQuit, MAction.procmonDeleteLater,
       MAction.threadQuit, MAction.threadWait, MAction.threadDeleteLater] ++
      closeActions s.processes ++ [MAction.contextDestroy] ∧
    (closeEvent (closeEvent s).1).2 =
      closeActions s.processes ++ [MAction.contextDestroy] ∧
    (closeEvent s).1.processes = s.processes := by
  refine ⟨?_, ?_, rfl⟩
  · simp [closeEvent, hm, ht]
  · rfl

theorem closeEvent_second_call_witness :
    (closeEvent mgrCexC2).2 =
      [MAction.procmonQuit, MAction.procmonDeleteLater,
       MAction.threadQuit, MAction.threadWait, MAction.threadDeleteLater] ++
      closeActions mgrCexC2.processes ++ [MAction.contextDestroy] ∧
    (closeEvent (closeEvent mgrCexC2).1).2 =
      closeActions mgrCexC2.processes ++ [MAction.contextDestroy] ∧
    (closeEvent mgrCexC2).1.processes = mgrCexC2.processes :=
  closeEvent_second_call mgrCexC2 rfl rfl

/-! ## C3: launch sequences assign lowest free ports, pairwise distinct -/

theorem launchApp_initialPort (s : ManagerState) (i : IdT) :
    (launchApp s i).1.initialPort = s.initialPort := by
  unfold launchApp
  by_cases h : hasId s i = true
  · rw [if_pos h]
  · rw [if_neg h]

theorem launchAll_initialPort (ids : List IdT) :
    ∀ s, (launchAll s ids).initialPort = s.initialPort := by
  induction ids with
  | nil => intro s; rfl
  | cons i rest ih =>
    intro s
    show (launchAll (launchApp s i).1 rest).initialPort = s.initialPort
    rw [ih, launchApp_initialPort]

theorem launchAll_append (l1 l2 : List IdT) :
    ∀ s, launchAll s (l1 ++ l2) = launchAll (launchAll s l1) l2 := by
  induction l1 with
  | nil => intro s; rfl
  | cons i rest ih =>
    intro s
    show launchAll (launchApp s i).1 (rest ++ l2) =
      launchAll (launchAll (launchApp s i).1 rest) l2
    exact ih (launchApp s i).1

theorem hasId_launchApp (s : ManagerState) (i j : IdT) :
    hasId (launchApp s i).1 j = (hasId s j || decide (i = j)) := by
  by_cases h : hasId s i = true
  · unfold launchApp
    rw [if_pos h]
    by_cases hij : i = j
    · subst hij
      rw [h]
      simp
    · simp [hij]
  · have hstep : (launchApp s i).1.processes =
        s.processes ++ [(i, findFreePort s.initialPort (usedPorts s))] := by
      unfold launchApp
      rw [if_neg h]
    show (launchApp s i).1.processes.any (fun p => p.1 = j) = _
    rw [hstep, List.any_append]
    simp [hasId]

theorem hasId_launchAll_false (ids : List IdT) :
    ∀ s j, hasId s j = false → j ∉ ids → hasId (launchAll s ids) j = false := by
  induction ids with
  | nil => intro s j h _; exact h
  | cons i rest ih =>
    intro s j h hnot
    have hne : i ≠ j := fun hcon => hnot (hcon ▸ List.mem_cons_self i rest)
    show hasId (launchAll (launchApp s i).1 rest) j = false
    apply ih
    · rw [hasId_launchApp, h]
      simp [hne]
    · exact fun hmem => hnot (List.mem_cons_of_mem i hmem)

theorem usedPorts_launchApp_fresh (s : ManagerState) (i : IdT)
    (h : hasId s i = false) :
    usedPorts (launchApp s i).1 =
      usedPorts s ++ [findFreePort s.initialPort (usedPorts s)] := by
  have hnot : ¬ (hasId s i = true) := by
    rw [h]
    exact Bool.false_ne_true
  show (launchApp s i).1.processes.map Prod.snd = _
  unfold launchApp
  rw [if_neg hnot]
  show (s.processes ++ [(i, _)]).map Prod.snd = _
  rw [List.map_append]
  rfl

theorem usedPorts_nodup_launchApp (s : ManagerState) (i : IdT)
    (h : (usedPorts s).Nodup) : (usedPorts (launchApp s i).1).Nodup := by
  by_cases hdup : hasId s i = true
  · have : (launchApp s i).1 = s := by
      unfold launchApp
      rw [if_pos hdup]
    rw [this]
    exact h
  · have hfresh : hasId s i = false := by
      rw [Bool.not_eq_true] at hdup
      exact hdup
    rw [usedPorts_launchApp_fresh s i hfresh, List.nodup_append]
    refine ⟨h, List.nodup_singleton _, ?_⟩
    intro x hx hmem
    rw [List.mem_singleton] at hmem
    subst hmem
    exact (findFreePort_spec s.initialPort (usedPorts s)).2.1 hx

theorem usedPorts_nodup_launchAll (ids : List IdT) :
    ∀ s, (usedPorts s).Nodup → (usedPorts (launchAll s ids)).Nodup := by
  induction ids with
  | nil => intro s h; exact h
  | cons i rest ih =>
    intro s h
    exact ih (launchApp s i).1 (usedPorts_nodup_launchApp s i h)

theorem lookupId_launchApp_self (s : ManagerState) (i : IdT)
    (h : hasId s i = false) :
    lookupId (launchApp s i).1 i =
      some (findFreePort s.initialPort (usedPorts s)) := by
  have hnot : ¬ (hasId s i = true) := by
    rw [h]
    exact Bool.false_ne_true
  have hnone : s.processes.find? (fun p => p.1 = i) = Option.none := by
    rw [List.find?_eq_none]
    intro x hx hcon
    rw [decide_eq_true_eq] at hcon
    exact hnot (List.any_eq_true.2 ⟨x, hx, by rw [hcon]; simp⟩)
  show ((launchApp s i).1.processes.find? (fun p : IdT × Nat => p.1 = i)).map Prod.snd = _
  unfold launchApp
  rw [if_neg hnot]
  show ((s.processes ++ [(i, _)]).find? (fun p : IdT × Nat => p.1 = i)).map Prod.snd = _
  rw [List.find?_append, hnone, Option.none_or]
  simp [List.find?_cons]

theorem lookupId_launchApp_of_some (s : ManagerState) (i j : IdT) (q : Nat)
    (h : lookupId s j = some q) : lookupId (launchApp s i).1 j = some q := by
  by_cases hdup : hasId s i = true
  · have : (launchApp s i).1 = s := by
      unfold launchApp
      rw [if_pos hdup]
    rw [this]
    exact h
  · obtain ⟨pr, hfind, hsnd⟩ : ∃ pr, s.processes.find? (fun p => p.1 = j) = some pr ∧
        pr.2 = q := by
      rcases hf : s.processes.find? (fun p => p.1 = j) with _ | pr
      · rw [lookupId, hf] at h
        exact absurd h (by simp)
      · rw [lookupId, hf] at h
        exact ⟨pr, hf, by simpa using h⟩
    show ((launchApp s i).1.processes.find? (fun p : IdT × Nat => p.1 = j)).map Prod.snd = _
    unfold launchApp
    rw [if_neg hdup]
    show ((s.processes ++ [(i, _)]).find? (fun p : IdT × Nat => p.1 = j)).map Prod.snd = _
    rw [List.find?_append, hfind, Option.or_some]
    show some pr.2 = some q
    rw [hsnd]

theorem lookupId_launchAll_of_some (ids : List IdT) :
    ∀ (s : ManagerState) (j : IdT) (q : Nat), lookupId s j = some q →
      lookupId (launchAll s ids) j = some q := by
  induction ids with
  | nil => intro s j q h; exact h
  | cons i rest ih =>
    intro s j q h
    exact ih (launchApp s i).1 j q (lookupId_launchApp_of_some s i j q h)

/-- C3: over any sequence of `launchApp` calls with pairwise-distinct ids
starting from a fresh manager, every call assigns the lowest port at or
above the configured base not used by a live record at the time of the
call, that port is the one recorded for the id at the end of the sequence,
and the recorded ports are pairwise distinct. -/
theorem launch_sequence_ports (base : Nat) (ids : List IdT)
    (hids : ids.Nodup) :
    (usedPorts (launchAll (initManager base) ids)).Nodup ∧
    ∀ pre i post, ids = pre ++ i :: post →
      IsLowestFreePort (launchAll (initManager base) pre)
        (findFreePort base (usedPorts (launchAll (initManager base) pre))) ∧
      lookupId (launchAll (initManager base) ids) i =
        some (findFreePort base (usedPorts (launchAll (initManager base) pre))) := by
  constructor
  · exact usedPorts_nodup_launchAll ids (initManager base) List.nodup_nil
  · intro pre i post heq
    have hbase : (launchAll (initManager base) pre).initialPort = base :=
      launchAll_initialPort pre (initManager base)
    constructor
    · have h := isLowestFreePort_findFreePort (launchAll (initManager base) pre)
      rw [hbase] at h
      exact h
    · subst heq
      have hnd := List.nodup_append.1 hids
      have hipre : i ∉ pre := fun hmem =>
        hnd.2.2 hmem (List.mem_cons_self i post)
      have hfresh : hasId (launchAll (initManager base) pre) i = false :=
        hasId_launchAll_false pre (initManager base) i rfl hipre
      rw [launchAll_append]
      show lookupId
          (launchAll (launchApp (launchAll (initManager base) pre) i).1 post) i = _
      apply lookupId_launchAll_of_some
      rw [lookupId_launchApp_self _ i hfresh, hbase]

theorem launch_sequence_ports_witness :
    (usedPorts (launchAll (initManager 12345) [IdT.str "a", IdT.str "b"])).Nodup ∧
    lookupId (launchAll (initManager 12345) [IdT.str "a", IdT.str "b"]) (IdT.str "b") =
      some (findFreePort 12345 (usedPorts (launchAll (initManager 12345) [IdT.str "a"]))) ∧
    findFreePort 12345 (usedPorts (launchAll (initManager 12345) [IdT.str "a"])) = 12346 := by
  have h := launch_sequence_ports 12345 [IdT.str "a", IdT.str "b"] (by decide)
  exact ⟨h.1, (h.2 [IdT.str "a"] (IdT.str "b") [] rfl).2, rfl⟩

/-! ## C4: reaping frees the id and its port -/

theorem any_key_eq_false {d : List (IdT × Nat)} {i : IdT}
    (h : i ∉ d.map Prod.fst) : d.any (fun p => p.1 = i) = false := by
  rw [List.any_eq_false]
  intro x hx hcon
  rw [decide_eq_true_eq] at hcon
  exact h (hcon ▸ List.mem_map_of_mem Prod.fst hx)

theorem find?_key_eq_none {d : List (IdT × Nat)} {i : IdT}
    (h : i ∉ d.map Prod.fst) :
    d.find? (fun p => p.1 = i) = Option.none := by
  rw [List.find?_eq_none]
  intro x hx hcon
  rw [decide_eq_true_eq] at hcon
  exact h (hcon ▸ List.mem_map_of_mem Prod.fst hx)

theorem eraseP_key_facts (i : IdT) :
    ∀ (d : List (IdT × Nat)) (q : Nat),
      (keysOf d).Nodup → (d.map Prod.snd).Nodup →
      (d.find? (fun p => p.1 = i)).map Prod.snd = some q →
      ((d.eraseP (fun p => p.1 = i)).any (fun p => p.1 = i) = false ∧
       (d.eraseP (fun p => p.1 = i)).find? (fun p => p.1 = i) = Option.none ∧
       q ∉ (d.eraseP (fun p => p.1 = i)).map Prod.snd) := by
  intro d
  induction d with
  | nil =>
    intro q _ _ hq
    exact absurd hq (by simp)
  | cons a rest ih =>
    obtain ⟨k, v⟩ := a
    intro q hkeys hports hq
    rw [keysOf, List.map_cons, List.nodup_cons] at hkeys
    rw [List.map_cons, List.nodup_cons] at hports
    by_cases hki : k = i
    · subst hki
      have herase : ((k, v) :: rest).eraseP (fun p : IdT × Nat => p.1 = k) = rest := by
        simp [List.eraseP_cons]
      have hqv : v = q := by
        rw [List.find?_cons] at hq
        simp at hq
        exact hq
      rw [herase]
      refine ⟨any_key_eq_false hkeys.1, find?_key_eq_none hkeys.1, ?_⟩
      rw [← hqv]
      exact hports.1
    · have herase : ((k, v) :: rest).eraseP (fun p : IdT × Nat => p.1 = i) =
          (k, v) :: rest.eraseP (fun p : IdT × Nat => p.1 = i) := by
        simp [List.eraseP_cons, hki]
      have hq2 : (rest.find? (fun p : IdT × Nat => p.1 = i)).map Prod.snd = some q := by
        rw [List.find?_cons] at hq
        simpa [hki] using hq
      obtain ⟨h1, h2, h3⟩ := ih q hkeys.2 hports.2 hq2
      have hqrest : q ∈ rest.map Prod.snd := by
        rcases hf : rest.find? (fun p : IdT × Nat => p.1 = i) with _ | pr
        · rw [hf] at hq2
          exact absurd hq2 (by simp)
        · rw [hf] at hq2
          have : pr.2 = q := by simpa using hq2
          exact this ▸ List.mem_map_of_mem Prod.snd (List.mem_of_find?_eq_some hf)
      have hvq : v ≠ q := fun hcon => hports.1 (hcon ▸ hqrest)
      rw [herase]
      refine ⟨?_, ?_, ?_⟩
      · rw [List.any_cons]
        simp [hki, h1]
      · rw [List.find?_cons]
        simp [hki, h2]
      · rw [List.map_cons, List.mem_cons]
        rintro (hcon | hcon)
        · exact hvq hcon.symm
        · exact h3 hcon

/-- The manager state after a successful `onProcessEneded(i)`. -/
def reapState (s : ManagerState) (i : IdT) : ManagerState :=
  { s with processes := s.processes.eraseP (fun p => p.1 = i) }

/-- C4: once the liveness monitor reports worker `i` terminated and the
façade handler `onProcessEneded` runs, the process table no longer contains
`i`, the port `q` it held is no longer among the used ports (so it is
eligible for reuse), and whenever `q` is the lowest free port of the new
state, the next `launchApp` with a fresh id is assigned exactly `q`. -/
theorem reaped_id_gone_port_reusable (s : ManagerState) (i : IdT) (q : Nat)
    (hq : lookupId s i = some q)
    (hkeys : (keysOf s.processes).Nodup)
    (hports : (usedPorts s).Nodup) :
    onProcessEneded s i = .ok (reapState s i) ∧
    hasId (reapState s i) i = false ∧
    lookupId (reapState s i) i = Option.none ∧
    q ∉ usedPorts (reapState s i) ∧
    ∀ j, hasId (reapState s i) j = false → IsLowestFreePort (reapState s i) q →
      lookupId (launchApp (reapState s i) j).1 j = some q := by
  have hfq : (s.processes.find? (fun p : IdT × Nat => p.1 = i)).map Prod.snd = some q := hq
  have hany : s.processes.any (fun p => p.1 = i) = true := by
    rcases hf : s.processes.find? (fun p : IdT × Nat => p.1 = i) with _ | pr
    · rw [hf] at hfq
      exact absurd hfq (by simp)
    · have hmem := List.mem_of_find?_eq_some hf
      have hpred := List.find?_some hf
      exact List.any_eq_true.2 ⟨pr, hmem, hpred⟩
  obtain ⟨h1, h2, h3⟩ := eraseP_key_facts i s.processes q hkeys hports hfq
  have hdel : delKey s.processes i =
      .ok (s.processes.eraseP (fun p => p.1 = i)) := by
    unfold delKey
    rw [if_pos hany]
  refine ⟨?_, h1, ?_, h3, ?_⟩
  · unfold onProcessEneded
    rw [hdel]
    rfl
  · show ((reapState s i).processes.find? (fun p : IdT × Nat => p.1 = i)).map Prod.snd =
      Option.none
    rw [show (reapState s i).processes =
        s.processes.eraseP (fun p : IdT × Nat => p.1 = i) from rfl, h2]
    rfl
  · intro j hj hlow
    have hassigned := lookupId_launchApp_self (reapState s i) j hj
    have hspec := isLowestFreePort_findFreePort (reapState s i)
    have heq : findFreePort (reapState s i).initialPort (usedPorts (reapState s i)) = q :=
      Nat.le_antisymm (hspec.2.2 q hlow.1 hlow.2.1)
        (hlow.2.2 _ hspec.1 hspec.2.1)
    rw [hassigned, heq]

/-- A manager tracking workers 1 and 2 on ports 12345 and 12346. -/
def mgrC4 : ManagerState :=
  { initialPort := 12345, processes := [(IdT.int 1, 12345), (IdT.int 2, 12346)],
    procmon := true, procmonThread := true }

theorem reaped_id_gone_port_reusable_witness :
    onProcessEneded mgrC4 (IdT.int 1) = .ok (reapState mgrC4 (IdT.int 1)) ∧
    hasId (reapState mgrC4 (IdT.int 1)) (IdT.int 1) = false ∧
    lookupId (reapState mgrC4 (IdT.int 1)) (IdT.int 1) = Option.none ∧
    12345 ∉ usedPorts (reapState mgrC4 (IdT.int 1)) ∧
    lookupId (launchApp (reapState mgrC4 (IdT.int 1)) (IdT.int 3)).1 (IdT.int 3) =
      some 12345 := by
  have h := reaped_id_gone_port_reusable mgrC4 (IdT.int 1) 12345 rfl
    (by decide) (by decide)
  refine ⟨h.1, h.2.1, h.2.2.1, h.2.2.2.1, ?_⟩
  refine h.2.2.2.2 (IdT.int 3) rfl ⟨Nat.le_refl _, ?_, fun p hp _ => hp⟩
  exact h.2.2.2.1

/-! ## C10: the monitor emits each id at most once per registration -/

theorem monitorCycleAux_eq (state : IdT → Nat) :
    ∀ (snap cur ems : List IdT),
      monitorCycleAux state snap cur ems =
        (cur.diff (snap.filter (fun i => state i = 0)),
         ems ++ snap.filter (fun i => state i = 0)) := by
  intro snap
  induction snap with
  | nil =>
    intro cur ems
    simp [monitorCycleAux]
  | cons i rest ih =>
    intro cur ems
    by_cases hd : state i = 0
    · rw [List.filter_cons, if_pos (by simpa using hd), List.diff_cons]
      simp only [monitorCycleAux, if_pos hd]
      rw [ih]
      simp [List.append_assoc]
    · rw [List.filter_cons, if_neg (by simpa using hd)]
      simp only [monitorCycleAux, if_neg hd]
      rw [ih]

theorem diff_filter_of_nodup (p : IdT → Bool) :
    ∀ l : List IdT, l.Nodup → l.diff (l.filter p) = l.filter (fun a => !(p a)) := by
  intro l
  induction l with
  | nil => intro _; rfl
  | cons a rest ih =>
    intro h
    rw [List.nodup_cons] at h
    by_cases hp : p a = true
    · rw [List.filter_cons, if_pos hp, List.diff_cons, List.erase_cons_head]
      rw [List.filter_cons, if_neg (by simp [hp])]
      exact ih h.2
    · have hpf : p a = false := by
        rwa [Bool.not_eq_true] at hp
      have hnotmem : a ∉ rest.filter p := fun hmem =>
        h.1 (List.mem_filter.1 hmem).1
      rw [List.filter_cons, if_neg hp, List.cons_diff_of_not_mem hnotmem]
      rw [List.filter_cons, if_pos (by simp [hpf])]
      rw [ih h.2]

theorem monitorCycle_eq (state : IdT → Nat) (tracked : List IdT)
    (h : tracked.Nodup) :
    monitorCycle state tracked =
      (tracked.filter (fun i => !(decide (state i = 0))),
       tracked.filter (fun i => state i = 0)) := by
  unfold monitorCycle
  rw [monitorCycleAux_eq, List.nil_append, diff_filter_of_nodup _ tracked h]

theorem monitorRun_facts (states : List (IdT → Nat)) :
    ∀ tracked : List IdT, tracked.Nodup →
      ((monitorRun states tracked).2.Nodup ∧
       (∀ i ∈ (monitorRun states tracked).2, i ∈ tracked) ∧
       (monitorRun states tracked).1.Nodup ∧
       (∀ i ∈ (monitorRun states tracked).2, i ∉ (monitorRun states tracked).1) ∧
       (∀ i ∈ (monitorRun states tracked).1, i ∈ tracked)) := by
  induction states with
  | nil =>
    intro tracked h
    exact ⟨List.nodup_nil, fun i hi => absurd hi (List.not_mem_nil i), h,
      fun i hi => absurd hi (List.not_mem_nil i), fun i hi => hi⟩
  | cons st rest ih =>
    intro tracked h
    have hcyc := monitorCycle_eq st tracked h
    have ht1 : (monitorCycle st tracked).1 =
        tracked.filter (fun i => !(decide (st i = 0))) := by rw [hcyc]
    have he2 : (monitorCycle st tracked).2 =
        tracked.filter (fun i => st i = 0) := by rw [hcyc]
    have ht1nd : (monitorCycle st tracked).1.Nodup := by
      rw [ht1]
      exact h.filter _
    have ht1sub : ∀ i ∈ (monitorCycle st tracked).1, i ∈ tracked := by
      rw [ht1]
      exact fun i hi => (List.mem_filter.1 hi).1
    have he2nd : (monitorCycle st tracked).2.Nodup := by
      rw [he2]
      exact h.filter _
    have he2sub : ∀ i ∈ (monitorCycle st tracked).2, i ∈ tracked := by
      rw [he2]
      exact fun i hi => (List.mem_filter.1 hi).1
    have hdisj12 : ∀ i ∈ (monitorCycle st tracked).2, i ∉ (monitorCycle st tracked).1 := by
      rw [he2, ht1]
      intro i hi hcon
      have hd1 := (List.mem_filter.1 hi).2
      have hd2 := (List.mem_filter.1 hcon).2
      simp only [Bool.not_eq_true'] at hd2
      rw [hd2] at hd1
      exact Bool.noConfusion hd1
    obtain ⟨ihnd, ihsub, ihfnd, ihdisj, ihfsub⟩ := ih (monitorCycle st tracked).1 ht1nd
    refine ⟨?_, ?_, ihfnd, ?_, ?_⟩
    · show ((monitorCycle st tracked).2 ++
        (monitorRun rest (monitorCycle st tracked).1).2).Nodup
      rw [List.nodup_append]
      refine ⟨he2nd, ihnd, ?_⟩
      intro x hx hx2
      exact hdisj12 x hx (ihsub x hx2)
    · intro i hi
      rcases List.mem_append.1 hi with h1 | h2
      · exact he2sub i h1
      · exact ht1sub i (ihsub i h2)
    · intro i hi hcon
      rcases List.mem_append.1 hi with h1 | h2
      · exact hdisj12 i h1 (ihfsub i hcon)
      · exact ihdisj i h2 hcon
    · exact fun i hi => ht1sub i (ihfsub i hi)

theorem mem_keys_eraseP {i j : IdT} (hne : j ≠ i) :
    ∀ d : List (IdT × Nat), j ∈ keysOf d →
      j ∈ keysOf (d.eraseP (fun p => p.1 = i)) := by
  intro d
  induction d with
  | nil => intro hj; exact absurd hj (List.not_mem_nil j)
  | cons a rest ih =>
    obtain ⟨k, v⟩ := a
    intro hj
    rw [keysOf, List.map_cons, List.mem_cons] at hj
    by_cases hki : k = i
    · have herase : ((k, v) :: rest).eraseP (fun p : IdT × Nat => p.1 = i) = rest := by
        simp [List.eraseP_cons, hki]
      rw [herase]
      rcases hj with hj | hj
      · exact absurd (hj.trans hki) hne
      · exact hj
    · have herase : ((k, v) :: rest).eraseP (fun p : IdT × Nat => p.1 = i) =
          (k, v) :: rest.eraseP (fun p : IdT × Nat => p.1 = i) := by
        simp [List.eraseP_cons, hki]
      rw [herase, keysOf, List.map_cons, List.mem_cons]
      rcases hj with hj | hj
      · exact Or.inl hj
      · exact Or.inr (ih hj)

theorem reapAll_ok :
    ∀ (ems : List IdT) (d : List (IdT × Nat)), ems.Nodup →
      (∀ i ∈ ems, i ∈ keysOf d) → isOkE (reapAll d ems) = true := by
  intro ems
  induction ems with
  | nil => intro d _ _; rfl
  | cons i rest ih =>
    intro d hnd hmem
    rw [List.nodup_cons] at hnd
    have hi : i ∈ keysOf d := hmem i (List.mem_cons_self i rest)
    have hany : d.any (fun p => p.1 = i) = true := by
      obtain ⟨p, hp, hfst⟩ := List.mem_map.1 hi
      exact List.any_eq_true.2 ⟨p, hp, by rw [decide_eq_true_eq]; exact hfst⟩
    have hdel : delKey d i = .ok (d.eraseP (fun p => p.1 = i)) := by
      unfold delKey
      rw [if_pos hany]
    show isOkE (reapAll d (i :: rest)) = true
    rw [reapAll, hdel]
    apply ih
    · exact hnd.2
    · intro j hj
      have hne : j ≠ i := fun hcon => hnd.1 (hcon ▸ hj)
      exact mem_keys_eraseP hne d (hmem j (List.mem_cons_of_mem i hj))

/-- C10: starting from duplicate-free tracked ids, the liveness monitor
emits each id at most once over any run of cycles (it deletes the id from
its own dict in the same cycle, before emitting, so later snapshots exclude
it), and consequently feeding every emission to the unguarded
`del self.processes[Id]` of the façade handler never raises a `KeyError`, provided
every tracked id has a process-table entry. -/
theorem monitor_emits_each_id_once (states : List (IdT → Nat))
    (tracked : List IdT) (d : List (IdT × Nat))
    (h1 : tracked.Nodup) (h2 : ∀ i ∈ tracked, i ∈ keysOf d) :
    (monitorRun states tracked).2.Nodup ∧
    isOkE (reapAll d (monitorRun states tracked).2) = true := by
  obtain ⟨he, hsub, -, -, -⟩ := monitorRun_facts states tracked h1
  exact ⟨he, reapAll_ok _ d he (fun i hi => h2 i (hsub i hi))⟩

/-- Cycle in which only worker a has exited. -/
def stCexA : IdT → Nat := fun i => if i = IdT.str "a" then 0 else 1

/-- Cycle in which every worker has exited. -/
def stCexAll : IdT → Nat := fun _ => 0

theorem monitor_emits_each_id_once_witness :
    (monitorRun [stCexA, stCexAll] [IdT.str "a", IdT.str "b"]).2.Nodup ∧
    isOkE (reapAll [(IdT.str "a", 12345), (IdT.str "b", 12346)]
      (monitorRun [stCexA, stCexAll] [IdT.str "a", IdT.str "b"]).2) = true := by
  refine monitor_emits_each_id_once [stCexA, stCexAll]
    [IdT.str "a", IdT.str "b"] [(IdT.str "a", 12345), (IdT.str "b", 12346)]
    (by decide) ?_
  intro i hi
  rcases List.mem_cons.1 hi with h | h
  · subst h; exact List.mem_cons_self _ _
  · rw [List.mem_singleton] at h
    subst h
    exact List.mem_cons_of_mem _ (List.mem_cons_self _ _)

end PlottrAppManager
